import Mathlib

/-!
Verification of the EnergyGrid telemetry client against its specification.

The development is a shallow embedding of the two source modules:
  - utils.js       : generateSignature (MD5 over path ++ token ++ timestamp),
                     chunkArray, getBatchRange, sleep
  - aggregator.js  : fetchBatchTelemetry (bounded exponential-backoff retry)
                     and aggregateAllTelemetry (sequential rate-limited loop)

Machine words are modelled as Nat reduced mod 2^32 where overflow matters.
Network attempt outcomes, per-attempt call durations and the persistence
write result are supplied by explicit environments; wall-clock time is a
Nat (milliseconds) threaded through the computation, and every sleep is
recorded explicitly so that timing claims are statable.
-/

set_option maxRecDepth 16384

namespace EnergyGrid

/-! ## MD5 (the digest used by crypto.createHash in utils.js)

Bytes are Nat values below 256; 32-bit words are Nat values below 2^32.
-/

/-- Bitwise complement inside a 32-bit word. -/
def wordNot (x : Nat) : Nat := 4294967295 - x % 4294967296

/-- Left rotation of a 32-bit word by s bits (0 ≤ s ≤ 32). -/
def rotl (x s : Nat) : Nat :=
  (x % 4294967296 * 2 ^ s + x % 4294967296 / 2 ^ (32 - s)) % 4294967296

/-- Per-round shift amounts of MD5 (RFC 1321). -/
def md5S : List Nat :=
  [7, 12, 17, 22, 7, 12, 17, 22, 7, 12, 17, 22, 7, 12, 17, 22,
   5, 9, 14, 20, 5, 9, 14, 20, 5, 9, 14, 20, 5, 9, 14, 20,
   4, 11, 16, 23, 4, 11, 16, 23, 4, 11, 16, 23, 4, 11, 16, 23,
   6, 10, 15, 21, 6, 10, 15, 21, 6, 10, 15, 21, 6, 10, 15, 21]

/-- Per-round additive constants of MD5 (RFC 1321). -/
def md5K : List Nat :=
  [0xd76aa478, 0xe8c7b756, 0x242070db, 0xc1bdceee,
   0xf57c0faf, 0x4787c62a, 0xa8304613, 0xfd469501,
   0x698098d8, 0x8b44f7af, 0xffff5bb1, 0x895cd7be,
   0x6b901122, 0xfd987193, 0xa679438e, 0x49b40821,
   0xf61e2562, 0xc040b340, 0x265e5a51, 0xe9b6c7aa,
   0xd62f105d, 0x02441453, 0xd8a1e681, 0xe7d3fbc8,
   0x21e1cde6, 0xc33707d6, 0xf4d50d87, 0x455a14ed,
   0xa9e3e905, 0xfcefa3f8, 0x676f02d9, 0x8d2a4c8a,
   0xfffa3942, 0x8771f681, 0x6d9d6122, 0xfde5380c,
   0xa4beea44, 0x4bdecfa9, 0xf6bb4b60, 0xbebfbc70,
   0x289b7ec6, 0xeaa127fa, 0xd4ef3085, 0x04881d05,
   0xd9d4d039, 0xe6db99e5, 0x1fa27cf8, 0xc4ac5665,
   0xf4292244, 0x432aff97, 0xab9423a7, 0xfc93a039,
   0x655b59c3, 0x8f0ccc92, 0xffeff47d, 0x85845dd1,
   0x6fa87e4f, 0xfe2ce6e0, 0xa3014314, 0x4e0811a1,
   0xf7537e82, 0xbd3af235, 0x2ad7d2bb, 0xeb86d391]

/-- MD5 state update of round i on state (a, b, c, d), given the 16 message
words M of the current block. -/
def md5Round (M : List Nat) (st : Nat × Nat × Nat × Nat) (i : Nat) :
    Nat × Nat × Nat × Nat :=
  let a := st.1
  let b := st.2.1
  let c := st.2.2.1
  let d := st.2.2.2
  let f :=
    if i < 16 then (b &&& c) ||| (wordNot b &&& d)
    else if i < 32 then (d &&& b) ||| (wordNot d &&& c)
    else if i < 48 then b ^^^ c ^^^ d
    else c ^^^ (b ||| wordNot d)
  let g :=
    if i < 16 then i
    else if i < 32 then (5 * i + 1) % 16
    else if i < 48 then (3 * i + 5) % 16
    else 7 * i % 16
  let tmp := (f + a + md5K.getD i 0 + M.getD g 0) % 4294967296
  (d, (b + rotl tmp (md5S.getD i 0)) % 4294967296, b, c)

/-- Decode a 4-byte little-endian group into one 32-bit word. -/
def wordOfLEBytes (w : List Nat) : Nat :=
  w.getD 0 0 + 256 * w.getD 1 0 + 65536 * w.getD 2 0 + 16777216 * w.getD 3 0

/-- Little-endian byte rendering of a 32-bit word. -/
def wordLEBytes (w : Nat) : List Nat :=
  [w % 256, w / 256 % 256, w / 65536 % 256, w / 16777216 % 256]

/-! ## chunkArray (utils.js lines 21 to 27)

The JS loop walks an index i from 0 in steps of `size` and pushes
`array.slice(i, i + size)`; this is the take/drop recursion below. The
loop does not terminate for size = 0 on a non-empty array, so the
embedding uses the input length as structural fuel; for positive `size`
the fuel is never exhausted (each step drops at least one element). -/

/-- Fuel-indexed worker for chunkArray. -/
def chunkGo (size : Nat) : Nat → List α → List (List α)
  | _, [] => []
  | 0, _ :: _ => []
  | fuel + 1, x :: xs =>
      ((x :: xs).take size) :: chunkGo size fuel ((x :: xs).drop size)

/-- Split array into chunks of specified size (utils.js chunkArray). -/
def chunkArray (array : List α) (size : Nat) : List (List α) :=
  chunkGo size array.length array

/-- Process one 64-byte block: decode the 16 little-endian words, run the 64
rounds, and add the result back into the incoming state mod 2^32. -/
def md5Block (st : Nat × Nat × Nat × Nat) (block : List Nat) : Nat × Nat × Nat × Nat :=
  let M := (chunkArray block 4).map wordOfLEBytes
  let r := (List.range 64).foldl (md5Round M) st
  ((st.1 + r.1) % 4294967296, (st.2.1 + r.2.1) % 4294967296,
   (st.2.2.1 + r.2.2.1) % 4294967296, (st.2.2.2 + r.2.2.2) % 4294967296)

/-- MD5 padding: append 0x80, zero-pad to 56 mod 64, then the original
length in bits as 8 little-endian bytes. -/
def md5Pad (msg : List Nat) : List Nat :=
  msg ++ [128] ++ List.replicate ((119 - msg.length % 64) % 64) 0
      ++ (List.range 8).map (fun i => 8 * msg.length / 256 ^ i % 256)

/-- Initial MD5 state. -/
def md5Init : Nat × Nat × Nat × Nat := (0x67452301, 0xefcdab89, 0x98badcfe, 0x10325476)

/-- MD5 digest of a byte sequence, as the 16 digest bytes. -/
def md5 (msg : List Nat) : List Nat :=
  let st := (chunkArray (md5Pad msg) 64).foldl md5Block md5Init
  wordLEBytes st.1 ++ wordLEBytes st.2.1 ++ wordLEBytes st.2.2.1 ++ wordLEBytes st.2.2.2

/-- The sixteen lowercase hexadecimal digit characters. -/
def hexChars : List Char := "0123456789abcdef".data

/-- Hexadecimal digit character for a value below 16. -/
def hexDigitChar (n : Nat) : Char := hexChars.getD n '0'

/-- Two lowercase hex characters of a byte. -/
def byteToHex (b : Nat) : List Char := [hexDigitChar (b / 16), hexDigitChar (b % 16)]

/-- Lowercase hexadecimal rendering of an MD5 digest (digest of the hex
encoding used by digest in utils.js). -/
def md5Hex (msg : List Nat) : String := String.mk ((md5 msg).flatMap byteToHex)

/-- UTF-8 bytes of a string, as Nat values below 256. -/
def strBytes (s : String) : List Nat := s.toUTF8.data.toList.map (fun b => b.toNat)

/-! ## generateSignature (utils.js lines 10 to 13)

The JS builds the template string url ++ token ++ timestamp (the number is
interpolated in decimal, with no delimiters) and takes the MD5 hex digest. -/

/-- Generate MD5 signature for API authentication (utils.js generateSignature). -/
def generateSignature (url token : String) (timestamp : Nat) : String :=
  md5Hex (strBytes (url ++ token ++ toString timestamp))

/-! ## getBatchRange (utils.js lines 43 to 47)

A null or undefined argument is modelled as `none`. -/

/-- Formatted range string for batch display (utils.js getBatchRange). -/
def getBatchRange (array : Option (List String)) : String :=
  match array with
  | none => ""
  | some a =>
      if a.length = 0 then ""
      else if a.length = 1 then a.headI
      else a.headI ++ " to " ++ a.getLastI

/-! ## Configuration constants (aggregator.js lines 12 to 20) -/

def BATCH_SIZE : Nat := 10
def RATE_LIMIT_MS : Nat := 1000
def MAX_RETRIES : Nat := 3
def SERIAL_NUMBER_COUNT : Nat := 500
def SERIAL_NUMBER_PADDING : Nat := 3

/-- Fixed endpoint path signed by every request (aggregator.js line 43). -/
def apiPath : String := "/device/real/query"

/-! ## Fetcher model (aggregator.js fetchBatchTelemetry, lines 42 to 79)

An axios error object is modelled by the two fields the code inspects:
`error.response?.status` and `error.code`. A request that exceeds the
configured timeout surfaces as an error whose code is ETIMEDOUT; a refused
connection as ECONNREFUSED. -/

/-- The observable part of a failed attempt: optional HTTP status and
optional error code string. -/
structure FetchErr where
  status : Option Nat
  code : Option String
deriving DecidableEq

/-- Retry classification, exactly the condition on aggregator.js line 67. -/
def retryable (e : FetchErr) : Bool :=
  e.status == some 429 || e.code == some "ECONNREFUSED" || e.code == some "ETIMEDOUT"

/-- Outcome of one network attempt, as decided by the environment: either
the parsed records of the response body (response.data.data) or an error. -/
inductive AttemptOut (R : Type u) where
  | ok (records : List R)
  | err (e : FetchErr)

/-- Environment of one fetchBatchTelemetry call: the secret token, and for
each attempt index k the outcome of attempt k and the wall-clock
milliseconds the network call consumed. -/
structure FetchEnv (R : Type u) where
  outcome : Nat → AttemptOut R
  dur : Nat → Nat
  secret : String

/-- Observable trace of one fetchBatchTelemetry call: the (timestamp,
signature) pair of every attempt in order, the backoff sleeps in order,
the final result, and the time at which the call returned. -/
structure FetchTrace (R : Type u) where
  attempts : List (Nat × String)
  sleeps : List Nat
  result : Except FetchErr (List R)
  endTime : Nat

/-- Worker for fetchBatchTelemetry. Each call captures the current time as
its timestamp and computes a fresh signature (aggregator.js lines 45 to 46);
on a retryable error with retryCount below MAX_RETRIES it sleeps
2^retryCount * 1000 ms and recurses with retryCount + 1 (lines 67 to 73);
otherwise it rethrows (line 77). The JS recursion depth is bounded by
MAX_RETRIES - retryCount, which is the structural fuel here; the retry
branch is elided in the fuel-zero equation because retryCount < MAX_RETRIES
is false whenever fuel = MAX_RETRIES - retryCount reaches zero, so both
equations final-fail exactly where the source rethrows. -/
def fetchGo (fe : FetchEnv R) (sn : List String) : Nat → Nat → Nat → FetchTrace R
  | now, k, 0 =>
    let ts := now
    let sig := generateSignature apiPath fe.secret ts
    match fe.outcome k with
    | .ok recs => ⟨[(ts, sig)], [], .ok recs, now + fe.dur k⟩
    | .err e => ⟨[(ts, sig)], [], .error e, now + fe.dur k⟩
  | now, k, f + 1 =>
    let ts := now
    let sig := generateSignature apiPath fe.secret ts
    match fe.outcome k with
    | .ok recs => ⟨[(ts, sig)], [], .ok recs, now + fe.dur k⟩
    | .err e =>
      if retryable e then
        if k < MAX_RETRIES then
          let d := 2 ^ k * 1000
          let rest := fetchGo fe sn (now + fe.dur k + d) (k + 1) f
          ⟨(ts, sig) :: rest.attempts, d :: rest.sleeps, rest.result, rest.endTime⟩
        else ⟨[(ts, sig)], [], .error e, now + fe.dur k⟩
      else ⟨[(ts, sig)], [], .error e, now + fe.dur k⟩

/-- Fetch telemetry data for a batch of serial numbers
(aggregator.js fetchBatchTelemetry), started at wall-clock time `now` with
retryCount 0, so fuel MAX_RETRIES suffices for every reachable recursion. -/
def fetchBatchTelemetry (fe : FetchEnv R) (sn : List String) (now : Nat) : FetchTrace R :=
  fetchGo fe sn now 0 MAX_RETRIES

/-- Final result of one fetchBatchTelemetry call; it does not depend on the
start time, the batch contents or the secret, only on the attempt outcomes. -/
def batchOutcome (fe : FetchEnv R) (sn : List String) : Except FetchErr (List R) :=
  (fetchBatchTelemetry fe sn 0).result

/-! ## Aggregator model (aggregator.js aggregateAllTelemetry, lines 87 to 164) -/

/-- Observable events of the batch loop, in order: the per-batch outcome
log line (success with record count, or permanent failure) and every
inter-batch rate-limit sleep. -/
inductive Ev where
  | batchOk (i : Nat) (records : Nat)
  | batchFail (i : Nat)
  | slept (ms : Nat)
deriving DecidableEq

/-- State produced by the batch loop. -/
structure RunState (R : Type u) where
  records : List R
  successCount : Nat
  failureCount : Nat
  events : List Ev
  endTime : Nat

/-- The for loop of aggregateAllTelemetry (lines 109 to 127): fetch batch i,
on success append data.data and bump successCount, on failure bump
failureCount; then, unless i is the last index, sleep RATE_LIMIT_MS. -/
def aggLoop (fenv : Nat → FetchEnv R) (total : Nat) :
    List (List String) → Nat → Nat → RunState R
  | [], _, now => ⟨[], 0, 0, [], now⟩
  | b :: rest, i, now =>
    let ft := fetchBatchTelemetry (fenv i) b now
    let pause : List Ev := if i < total - 1 then [Ev.slept RATE_LIMIT_MS] else []
    let now2 := if i < total - 1 then ft.endTime + RATE_LIMIT_MS else ft.endTime
    let tail := aggLoop fenv total rest (i + 1) now2
    match ft.result with
    | .ok data =>
        ⟨data ++ tail.records, 1 + tail.successCount, tail.failureCount,
         Ev.batchOk i data.length :: (pause ++ tail.events), tail.endTime⟩
    | .error _ =>
        ⟨tail.records, tail.successCount, 1 + tail.failureCount,
         Ev.batchFail i :: (pause ++ tail.events), tail.endTime⟩

/-- Pad the start of a string with copies of a fill character up to a target
length (the JS String.padStart with a one-character pad). -/
def padStart (s : String) (target : Nat) (c : Char) : String :=
  String.mk (List.replicate (target - s.length) c) ++ s

/-- The generated device id sequence SN-000 .. SN-499
(aggregator.js lines 93 to 95). -/
def allSerialNumbers : List String :=
  (List.range SERIAL_NUMBER_COUNT).map
    (fun i => "SN-" ++ padStart (toString i) SERIAL_NUMBER_PADDING '0')

/-- The batch list of a run (aggregator.js line 98). -/
def batches : List (List String) := chunkArray allSerialNumbers BATCH_SIZE

/-- Environment of a whole run: the fetch environment seen by each batch
index, and whether the persistence write would succeed. -/
structure AggEnv (R : Type u) where
  batchEnv : Nat → FetchEnv R
  saveOk : Bool

/-- Result of aggregateAllTelemetry. The JS function returns
allTelemetryData; the remaining fields model its other observable outcomes
(counters, log events, whether the file write was attempted and whether it
succeeded, elapsed time). -/
structure AggResult (R : Type u) where
  records : List R
  successCount : Nat
  failureCount : Nat
  events : List Ev
  persistAttempted : Bool
  persistSucceeded : Bool
  duration : Nat

/-- Main aggregator function (aggregator.js aggregateAllTelemetry). The
file write is attempted exactly when saveToDisk is set and at least one
record was collected (line 142); a write failure is only reported (line
159) and the function still returns allTelemetryData (line 163). -/
def aggregateAllTelemetry (env : AggEnv R) (saveToDisk : Bool) (now : Nat) : AggResult R :=
  let st := aggLoop env.batchEnv batches.length batches 0 now
  let attempted := saveToDisk && decide (0 < st.records.length)
  ⟨st.records, st.successCount, st.failureCount, st.events,
   attempted, attempted && env.saveOk, st.endTime - now⟩

/-- Records contributed to the aggregate collection by one batch result: a
successful batch contributes exactly the records the server returned, a
failed batch contributes nothing (aggregator.js lines 113 to 121). -/
def recsOf : Except FetchErr (List R) → List R
  | .ok d => d
  | .error _ => []

/-- Whether a batch result is a success. -/
def isOkB : Except FetchErr (List R) → Bool
  | .ok _ => true
  | .error _ => false

/-- The log event emitted for batch i by the loop body. -/
def evOf (i : Nat) : Except FetchErr (List R) → Ev
  | .ok d => Ev.batchOk i d.length
  | .error _ => Ev.batchFail i

/-- Whether an event is a per-batch event (as opposed to a sleep). -/
def isBatchEv : Ev → Bool
  | Ev.slept _ => false
  | _ => true

/-! ## Concrete test environments -/

/-- A fetch environment whose every attempt is rate limited (HTTP 429). -/
def alwaysRateLimited : FetchEnv Nat :=
  ⟨fun _ => .err ⟨some 429, none⟩, fun _ => 0, "tok"⟩

/-- A fetch environment whose every attempt succeeds with no records. -/
def alwaysEmpty : FetchEnv Nat := ⟨fun _ => .ok [], fun _ => 0, "tok"⟩

/-- A run environment whose batch 0 always fails retryably and whose other
batches succeed with no records. -/
def oneFailEnv : AggEnv Nat :=
  ⟨fun i => if i = 0 then alwaysRateLimited else alwaysEmpty, true⟩

/-- A run environment where every batch succeeds with no records. -/
def allEmptyEnv : AggEnv Nat := ⟨fun _ => alwaysEmpty, true⟩

/-! ## Lemmas about chunkArray -/

theorem chunkGo_flatten {α : Type u} (size : Nat) (hs : 0 < size) :
    ∀ (fuel : Nat) (l : List α), l.length ≤ fuel →
      (chunkGo size fuel l).flatten = l := by
  intro fuel
  induction fuel with
  | zero =>
    intro l hl
    rw [List.length_eq_zero.mp (Nat.le_zero.mp hl)]
    rfl
  | succ f ih =>
    intro l hl
    match l with
    | [] => rfl
    | x :: xs =>
      have hl1 : xs.length + 1 ≤ f + 1 := by simpa using hl
      simp only [chunkGo, List.flatten_cons]
      rw [ih ((x :: xs).drop size) (by simp only [List.length_drop, List.length_cons]; omega)]
      exact List.take_append_drop size (x :: xs)

theorem chunkGo_length {α : Type u} (size : Nat) (hs : 0 < size) :
    ∀ (fuel : Nat) (l : List α), l.length ≤ fuel →
      (chunkGo size fuel l).length = (l.length + size - 1) / size := by
  intro fuel
  induction fuel with
  | zero =>
    intro l hl
    rw [List.length_eq_zero.mp (Nat.le_zero.mp hl)]
    simp only [chunkGo, List.length_nil, Nat.zero_add]
    exact (Nat.div_eq_of_lt (by omega)).symm
  | succ f ih =>
    intro l hl
    match l with
    | [] =>
      simp only [chunkGo, List.length_nil, Nat.zero_add]
      exact (Nat.div_eq_of_lt (by omega)).symm
    | x :: xs =>
      have hl1 : xs.length + 1 ≤ f + 1 := by simpa using hl
      simp only [chunkGo, List.length_cons]
      rw [ih ((x :: xs).drop size) (by simp only [List.length_drop, List.length_cons]; omega)]
      simp only [List.length_drop, List.length_cons]
      rcases Nat.lt_or_ge size (xs.length + 1) with hlt | hge
      · have h1 : xs.length + 1 + size - 1 = (xs.length + 1 - size + size - 1) + size := by
          omega
        rw [h1, Nat.add_div_right _ hs]
      · have h1 : xs.length + 1 - size = 0 := by omega
        rw [h1]
        rw [Nat.div_eq_of_lt (show 0 + size - 1 < size by omega)]
        have h2 : xs.length + 1 + size - 1 = (xs.length + 1 - 1) + size := by omega
        rw [h2, Nat.add_div_right _ hs,
            Nat.div_eq_of_lt (show xs.length + 1 - 1 < size by omega)]

theorem chunkGo_mem {α : Type u} (size : Nat) (hs : 0 < size) :
    ∀ (fuel : Nat) (l : List α) (c : List α), l.length ≤ fuel →
      c ∈ chunkGo size fuel l → c ≠ [] ∧ c.length ≤ size := by
  intro fuel
  induction fuel with
  | zero =>
    intro l c hl hc
    rw [List.length_eq_zero.mp (Nat.le_zero.mp hl)] at hc
    cases hc
  | succ f ih =>
    intro l c hl hc
    match l with
    | [] => cases hc
    | x :: xs =>
      have hl1 : xs.length + 1 ≤ f + 1 := by simpa using hl
      simp only [chunkGo, List.mem_cons] at hc
      rcases hc with hc | hc
      · subst hc
        constructor
        · have hlt : ((x :: xs).take size).length = min size (xs.length + 1) := by
            simp [List.length_take]
          intro hnil
          rw [hnil] at hlt
          simp only [List.length_nil] at hlt
          omega
        · simp [List.length_take]
      · exact ih _ _ (by simp only [List.length_drop, List.length_cons]; omega) hc

theorem chunkGo_getD {α : Type u} (size : Nat) (hs : 0 < size) :
    ∀ (fuel : Nat) (l : List α) (j : Nat), l.length ≤ fuel →
      j + 1 < (chunkGo size fuel l).length →
      ((chunkGo size fuel l).getD j []).length = size := by
  intro fuel
  induction fuel with
  | zero =>
    intro l j hl hj
    rw [List.length_eq_zero.mp (Nat.le_zero.mp hl)] at hj
    simp [chunkGo] at hj
  | succ f ih =>
    intro l j hl hj
    match l with
    | [] => simp [chunkGo] at hj
    | x :: xs =>
      have hl1 : xs.length + 1 ≤ f + 1 := by simpa using hl
      simp only [chunkGo, List.length_cons] at hj ⊢
      match j with
      | 0 =>
        have hrest : 0 < (chunkGo size f ((x :: xs).drop size)).length := by omega
        have hdrop : (x :: xs).drop size ≠ [] := by
          intro hnil
          rw [hnil] at hrest
          cases f <;> simp [chunkGo] at hrest
        have hlen : size < xs.length + 1 := by
          by_contra hcon
          exact hdrop (List.drop_eq_nil_of_le (by simp only [List.length_cons]; omega))
        simp [List.length_take]
        omega
      | j + 1 =>
        simp only [List.getD_cons_succ]
        exact ih _ _ (by simp only [List.length_drop, List.length_cons]; omega) (by omega)

theorem chunkGo_getLast {α : Type u} (size : Nat) (hs : 0 < size) :
    ∀ (fuel : Nat) (l : List α), l.length ≤ fuel → l ≠ [] →
      ∃ c, (chunkGo size fuel l).getLast? = some c ∧
        c.length = l.length - size * ((chunkGo size fuel l).length - 1) := by
  intro fuel
  induction fuel with
  | zero =>
    intro l hl hne
    exact absurd (List.length_eq_zero.mp (Nat.le_zero.mp hl)) hne
  | succ f ih =>
    intro l hl hne
    match l with
    | [] => exact absurd rfl hne
    | x :: xs =>
      have hl1 : xs.length + 1 ≤ f + 1 := by simpa using hl
      simp only [chunkGo]
      by_cases hdrop : (x :: xs).drop size = []
      · have hrest : chunkGo size f ((x :: xs).drop size) = [] := by
          rw [hdrop]; cases f <;> rfl
        rw [hrest]
        refine ⟨(x :: xs).take size, rfl, ?_⟩
        have hlen : xs.length + 1 ≤ size := by
          have hd := List.drop_eq_nil_iff.mp hdrop
          simpa using hd
        simp [List.length_take]
        omega
      · obtain ⟨c, hc, hclen⟩ :=
          ih ((x :: xs).drop size) (by simp only [List.length_drop, List.length_cons]; omega)
            hdrop
        obtain ⟨r, rs, hrs⟩ :=
          List.exists_cons_of_ne_nil (l := chunkGo size f ((x :: xs).drop size))
            (by
              intro hnil
              rw [hnil] at hc
              simp at hc)
        refine ⟨c, ?_, ?_⟩
        · rw [hrs, List.getLast?_cons_cons, ← hrs, hc]
        · have hrestlen : 0 < (chunkGo size f ((x :: xs).drop size)).length := by
            rw [hrs]; simp
          simp only [List.length_cons]
          rw [hclen]
          simp only [List.length_drop, List.length_cons]
          obtain ⟨k, hk⟩ : ∃ k, (chunkGo size f ((x :: xs).drop size)).length = k + 1 :=
            ⟨_, (Nat.succ_pred_eq_of_pos hrestlen).symm⟩
          rw [hk]
          simp only [Nat.add_sub_cancel]
          rw [Nat.sub_sub]
          congr 1
          ring

/-- Any member of a chunking with positive size is non-empty and no longer
than the chunk size. -/
theorem chunkArray_mem {α : Type u} {l c : List α} {S : Nat} (hS : 0 < S)
    (hc : c ∈ chunkArray l S) : c ≠ [] ∧ c.length ≤ S :=
  chunkGo_mem S hS l.length l c le_rfl hc

/-- C3: for every finite sequence of N items and every batch size S > 0,
chunkArray returns exactly ceil(N/S) chunks; every chunk but the last has
length exactly S; the last chunk has length N - S*(ceil(N/S)-1), which lies
in [1, S]; concatenating the chunks in order reproduces the input; and an
empty input yields an empty chunk list. -/
theorem chunkArray_spec {α : Type u} (l : List α) (S : Nat) (hS : 0 < S) :
    (chunkArray l S).length = (l.length + S - 1) / S
    ∧ (∀ j : Nat, j + 1 < (chunkArray l S).length →
        ((chunkArray l S).getD j []).length = S)
    ∧ (l ≠ [] → ∃ c, (chunkArray l S).getLast? = some c ∧
        c.length = l.length - S * ((chunkArray l S).length - 1) ∧
        1 ≤ c.length ∧ c.length ≤ S)
    ∧ (chunkArray l S).flatten = l
    ∧ chunkArray ([] : List α) S = [] := by
  refine ⟨chunkGo_length S hS l.length l le_rfl,
    fun j hj => chunkGo_getD S hS l.length l j le_rfl hj,
    fun hne => ?_,
    chunkGo_flatten S hS l.length l le_rfl, rfl⟩
  obtain ⟨c, hc, hlen⟩ := chunkGo_getLast S hS l.length l le_rfl hne
  have hmem : c ∈ chunkArray l S := by
    obtain ⟨hne2, heq⟩ := List.mem_getLast?_eq_getLast (show c ∈ (chunkArray l S).getLast? from hc ▸ rfl)
    exact heq ▸ List.getLast_mem hne2
  obtain ⟨hcne, hcle⟩ := chunkArray_mem hS hmem
  exact ⟨c, hc, hlen, List.length_pos.mpr hcne, hcle⟩

/-- Witness for C3 at the concrete input [0, 1, 2, 3, 4] with size 2. -/
theorem chunkArray_spec_witness :
    (0 < 2)
    ∧ ((chunkArray [0, 1, 2, 3, 4] 2).length = ([0, 1, 2, 3, 4].length + 2 - 1) / 2
    ∧ (∀ j : Nat, j + 1 < (chunkArray [0, 1, 2, 3, 4] 2).length →
        ((chunkArray [0, 1, 2, 3, 4] 2).getD j []).length = 2)
    ∧ ([0, 1, 2, 3, 4] ≠ [] → ∃ c, (chunkArray [0, 1, 2, 3, 4] 2).getLast? = some c ∧
        c.length = [0, 1, 2, 3, 4].length - 2 * ((chunkArray [0, 1, 2, 3, 4] 2).length - 1) ∧
        1 ≤ c.length ∧ c.length ≤ 2)
    ∧ (chunkArray [0, 1, 2, 3, 4] 2).flatten = [0, 1, 2, 3, 4]
    ∧ chunkArray ([] : List Nat) 2 = []) :=
  ⟨by decide, chunkArray_spec [0, 1, 2, 3, 4] 2 (by decide)⟩

/-! ## Lemmas about the concrete run configuration -/

theorem allSerialNumbers_length : allSerialNumbers.length = 500 := by
  simp [allSerialNumbers, SERIAL_NUMBER_COUNT]

theorem batches_length : batches.length = 50 := by
  have h := chunkGo_length BATCH_SIZE (by decide) allSerialNumbers.length allSerialNumbers le_rfl
  rw [batches, chunkArray, h, allSerialNumbers_length]
  decide

/-! ## Step equations and lemmas about the fetcher -/

/-- A successful attempt ends the fetch with the records of the response. -/
theorem fetchGo_ok {R : Type u} (fe : FetchEnv R) (sn : List String)
    (now k fuel : Nat) {recs : List R} (he : fe.outcome k = .ok recs) :
    fetchGo fe sn now k fuel =
      ⟨[(now, generateSignature apiPath fe.secret now)], [], .ok recs,
        now + fe.dur k⟩ := by
  cases fuel <;> simp only [fetchGo, he]

/-- A non-retryable error, or a retryable one with the retry budget
exhausted, ends the fetch with that error after the single attempt. -/
theorem fetchGo_final {R : Type u} (fe : FetchEnv R) (sn : List String)
    (now k fuel : Nat) {e : FetchErr} (he : fe.outcome k = .err e)
    (h : retryable e = false ∨ MAX_RETRIES ≤ k) :
    fetchGo fe sn now k fuel =
      ⟨[(now, generateSignature apiPath fe.secret now)], [], .error e,
        now + fe.dur k⟩ := by
  cases fuel with
  | zero => simp only [fetchGo, he]
  | succ f =>
    simp only [fetchGo, he]
    rcases h with h | h
    · rw [if_neg (by simp [h])]
    · by_cases hr : retryable e
      · rw [if_pos hr, if_neg (by omega)]
      · rw [if_neg hr]

/-- A retryable error below the retry budget sleeps 2^k * 1000 ms and
retries with a fresh timestamp. -/
theorem fetchGo_retry {R : Type u} (fe : FetchEnv R) (sn : List String)
    (now k f : Nat) {e : FetchErr} (he : fe.outcome k = .err e)
    (hr : retryable e = true) (hk : k < MAX_RETRIES) :
    fetchGo fe sn now k (f + 1) =
      ⟨(now, generateSignature apiPath fe.secret now) ::
          (fetchGo fe sn (now + fe.dur k + 2 ^ k * 1000) (k + 1) f).attempts,
        2 ^ k * 1000 :: (fetchGo fe sn (now + fe.dur k + 2 ^ k * 1000) (k + 1) f).sleeps,
        (fetchGo fe sn (now + fe.dur k + 2 ^ k * 1000) (k + 1) f).result,
        (fetchGo fe sn (now + fe.dur k + 2 ^ k * 1000) (k + 1) f).endTime⟩ := by
  simp only [fetchGo, he]
  rw [if_pos hr, if_pos hk]

/-- The final result of a fetch does not depend on the wall-clock time at
which it starts. -/
theorem fetchGo_now_indep {R : Type u} (fe : FetchEnv R) (sn : List String) :
    ∀ (fuel k now now2 : Nat),
      (fetchGo fe sn now k fuel).result = (fetchGo fe sn now2 k fuel).result := by
  intro fuel
  induction fuel with
  | zero =>
    intro k now now2
    cases he : fe.outcome k with
    | ok recs => rw [fetchGo_ok fe sn now k 0 he, fetchGo_ok fe sn now2 k 0 he]
    | err e => simp only [fetchGo, he]
  | succ f ih =>
    intro k now now2
    cases he : fe.outcome k with
    | ok recs => rw [fetchGo_ok fe sn now k _ he, fetchGo_ok fe sn now2 k _ he]
    | err e =>
      by_cases hr : retryable e
      · by_cases hk : k < MAX_RETRIES
        · rw [fetchGo_retry fe sn now k f he hr hk, fetchGo_retry fe sn now2 k f he hr hk]
          exact ih (k + 1) _ _
        · rw [fetchGo_final fe sn now k _ he (Or.inr (by omega)),
              fetchGo_final fe sn now2 k _ he (Or.inr (by omega))]
      · rw [fetchGo_final fe sn now k _ he (Or.inl (by simpa using hr)),
            fetchGo_final fe sn now2 k _ he (Or.inl (by simpa using hr))]

/-- The result of fetchBatchTelemetry equals the time-free batchOutcome. -/
theorem fetchBatchTelemetry_result {R : Type u} (fe : FetchEnv R) (sn : List String)
    (now : Nat) : (fetchBatchTelemetry fe sn now).result = batchOutcome fe sn :=
  fetchGo_now_indep fe sn MAX_RETRIES 0 now 0

/-- Every attempt of a fetch carries a timestamp at least the start time
and a signature computed from its own timestamp; the first attempt is
stamped with the start time; the timestamps are strictly increasing. -/
theorem fetchGo_attempts {R : Type u} (fe : FetchEnv R) (sn : List String) :
    ∀ (fuel k now : Nat),
      (fetchGo fe sn now k fuel).attempts.head? =
        some (now, generateSignature apiPath fe.secret now)
      ∧ (∀ p ∈ (fetchGo fe sn now k fuel).attempts,
          now ≤ p.1 ∧ p.2 = generateSignature apiPath fe.secret p.1)
      ∧ (fetchGo fe sn now k fuel).attempts.Pairwise (fun p q => p.1 < q.1) := by
  intro fuel
  induction fuel with
  | zero =>
    intro k now
    cases he : fe.outcome k with
    | ok recs => rw [fetchGo_ok fe sn now k 0 he]; simp
    | err e =>
      rw [show fetchGo fe sn now k 0 =
            ⟨[(now, generateSignature apiPath fe.secret now)], [], .error e,
              now + fe.dur k⟩ by simp only [fetchGo, he]]
      simp
  | succ f ih =>
    intro k now
    cases he : fe.outcome k with
    | ok recs => rw [fetchGo_ok fe sn now k _ he]; simp
    | err e =>
      by_cases hr : retryable e
      · by_cases hk : k < MAX_RETRIES
        · rw [fetchGo_retry fe sn now k f he hr hk]
          obtain ⟨ihhead, ihmem, ihpw⟩ := ih (k + 1) (now + fe.dur k + 2 ^ k * 1000)
          have hstep : now < now + fe.dur k + 2 ^ k * 1000 := by
            have hp2 : 0 < 2 ^ k := Nat.pos_pow_of_pos k (by omega)
            omega
          refine ⟨rfl, fun p hp => ?_, ?_⟩
          · rcases List.mem_cons.mp hp with hp | hp
            · rw [hp]; exact ⟨le_rfl, rfl⟩
            · obtain ⟨h1, h2⟩ := ihmem p hp
              exact ⟨le_trans (le_of_lt hstep) h1, h2⟩
          · refine List.Pairwise.cons (fun p hp => ?_) ihpw
            obtain ⟨h1, _⟩ := ihmem p hp
            omega
        · rw [fetchGo_final fe sn now k _ he (Or.inr (by omega))]; simp
      · rw [fetchGo_final fe sn now k _ he (Or.inl (by simpa using hr))]; simp

/-! ## Closed forms for the batch loop -/

/-- Shifting a per-index function across a cons cell of the batch list. -/
theorem shift_comp {γ : Type v} (F : Nat → List String → γ) (i : Nat)
    (b : List String) (rest : List (List String)) :
    ((fun t => F (i + t) ((b :: rest).getD t [])) ∘ Nat.succ) =
      (fun t => F (i + 1 + t) (rest.getD t [])) := by
  funext t
  simp only [Function.comp_apply, Nat.succ_eq_add_one, List.getD_cons_succ]
  have harith : i + (t + 1) = i + 1 + t := by omega
  rw [harith]

/-- Closed form of the batch loop: the collected records are the per-batch
contributions in order, the counters count successful and failed batches,
and the event trace is one batch event per batch, each followed by a
rate-limit sleep unless the batch is the last of the run. -/
theorem aggLoop_spec {R : Type u} (fenv : Nat → FetchEnv R) (total : Nat) :
    ∀ (bs : List (List String)) (i now : Nat),
      (aggLoop fenv total bs i now).records =
        ((List.range bs.length).map
          (fun t => recsOf (batchOutcome (fenv (i + t)) (bs.getD t [])))).flatten
      ∧ (aggLoop fenv total bs i now).successCount =
          (List.range bs.length).countP
            (fun t => isOkB (batchOutcome (fenv (i + t)) (bs.getD t [])))
      ∧ (aggLoop fenv total bs i now).failureCount =
          (List.range bs.length).countP
            (fun t => !isOkB (batchOutcome (fenv (i + t)) (bs.getD t [])))
      ∧ (aggLoop fenv total bs i now).events =
          ((List.range bs.length).map
            (fun t => evOf (i + t) (batchOutcome (fenv (i + t)) (bs.getD t [])) ::
              (if i + t < total - 1 then [Ev.slept RATE_LIMIT_MS] else []))).flatten := by
  intro bs
  induction bs with
  | nil => intro i now; simp [aggLoop]
  | cons b rest ih =>
    intro i now
    have hout : (fetchBatchTelemetry (fenv i) b now).result = batchOutcome (fenv i) b :=
      fetchBatchTelemetry_result _ _ _
    simp only [aggLoop]
    cases hres : (fetchBatchTelemetry (fenv i) b now).result with
    | ok data =>
      have hb : batchOutcome (fenv i) b = .ok data := hout.symm.trans hres
      obtain ⟨ih1, ih2, ih3, ih4⟩ := ih (i + 1) (if i < total - 1
        then (fetchBatchTelemetry (fenv i) b now).endTime + RATE_LIMIT_MS
        else (fetchBatchTelemetry (fenv i) b now).endTime)
      dsimp only
      refine ⟨?_, ?_, ?_, ?_⟩
      · rw [ih1, List.length_cons, List.range_succ_eq_map, List.map_cons,
          List.flatten_cons, List.map_map,
          shift_comp (fun idx bb => recsOf (batchOutcome (fenv idx) bb)) i b rest]
        simp [hb, recsOf]
      · rw [ih2, List.length_cons, List.range_succ_eq_map, List.countP_cons,
          List.countP_map,
          shift_comp (fun idx bb => isOkB (batchOutcome (fenv idx) bb)) i b rest]
        simp only [List.getD_cons_zero, Nat.add_zero, hb, isOkB]
        simp
        omega
      · rw [ih3, List.length_cons, List.range_succ_eq_map, List.countP_cons,
          List.countP_map,
          shift_comp (fun idx bb => !isOkB (batchOutcome (fenv idx) bb)) i b rest]
        simp only [List.getD_cons_zero, Nat.add_zero, hb, isOkB]
        simp
      · rw [ih4, List.length_cons, List.range_succ_eq_map, List.map_cons,
          List.flatten_cons, List.map_map,
          shift_comp (fun idx bb => evOf idx (batchOutcome (fenv idx) bb) ::
            (if idx < total - 1 then [Ev.slept RATE_LIMIT_MS] else [])) i b rest]
        simp [hb, evOf]
    | error e =>
      have hb : batchOutcome (fenv i) b = .error e := hout.symm.trans hres
      obtain ⟨ih1, ih2, ih3, ih4⟩ := ih (i + 1) (if i < total - 1
        then (fetchBatchTelemetry (fenv i) b now).endTime + RATE_LIMIT_MS
        else (fetchBatchTelemetry (fenv i) b now).endTime)
      dsimp only
      refine ⟨?_, ?_, ?_, ?_⟩
      · rw [ih1, List.length_cons, List.range_succ_eq_map, List.map_cons,
          List.flatten_cons, List.map_map,
          shift_comp (fun idx bb => recsOf (batchOutcome (fenv idx) bb)) i b rest]
        simp [hb, recsOf]
      · rw [ih2, List.length_cons, List.range_succ_eq_map, List.countP_cons,
          List.countP_map,
          shift_comp (fun idx bb => isOkB (batchOutcome (fenv idx) bb)) i b rest]
        simp only [List.getD_cons_zero, Nat.add_zero, hb, isOkB]
        simp
      · rw [ih3, List.length_cons, List.range_succ_eq_map, List.countP_cons,
          List.countP_map,
          shift_comp (fun idx bb => !isOkB (batchOutcome (fenv idx) bb)) i b rest]
        simp only [List.getD_cons_zero, Nat.add_zero, hb, isOkB]
        simp
        omega
      · rw [ih4, List.length_cons, List.range_succ_eq_map, List.map_cons,
          List.flatten_cons, List.map_map,
          shift_comp (fun idx bb => evOf idx (batchOutcome (fenv idx) bb) ::
            (if idx < total - 1 then [Ev.slept RATE_LIMIT_MS] else [])) i b rest]
        simp [hb, evOf]

/-- Every batch produces exactly one per-batch event, whatever its outcome:
the loop never stops early on a failed batch. -/
theorem aggLoop_batchEvents {R : Type u} (fenv : Nat → FetchEnv R) (total : Nat) :
    ∀ (bs : List (List String)) (i now : Nat),
      (aggLoop fenv total bs i now).events.countP isBatchEv = bs.length := by
  intro bs
  induction bs with
  | nil => intro i now; simp [aggLoop]
  | cons b rest ih =>
    intro i now
    simp only [aggLoop]
    cases hres : (fetchBatchTelemetry (fenv i) b now).result with
    | ok data =>
      dsimp only
      simp only [List.countP_cons, List.countP_append, ih, List.length_cons]
      by_cases hlt : i < total - 1 <;> simp [hlt, isBatchEv]
    | error e =>
      dsimp only
      simp only [List.countP_cons, List.countP_append, ih, List.length_cons]
      by_cases hlt : i < total - 1 <;> simp [hlt, isBatchEv]

/-- C1: for a batch whose every fetch attempt fails with a retryable error,
fetchBatchTelemetry performs exactly MAX_RETRIES = 3 retries, that is 4
attempts in total, with backoff sleeps of 1000, 2000 and 4000 ms before the
successive retries; the call then finally fails with the error of the last
attempt; and the aggregation loop always proceeds to the next batch (it
emits one per-batch event for every batch of the run, failures included). -/
theorem fetchBatchTelemetry_allRetryable {R : Type u} (fe : FetchEnv R)
    (sn : List String) (now : Nat)
    (h : ∀ k, k ≤ MAX_RETRIES →
      ∃ e, fe.outcome k = AttemptOut.err e ∧ retryable e = true) :
    (fetchBatchTelemetry fe sn now).attempts.length = MAX_RETRIES + 1
    ∧ (fetchBatchTelemetry fe sn now).sleeps = [1000, 2000, 4000]
    ∧ (∃ e, fe.outcome MAX_RETRIES = AttemptOut.err e ∧
        (fetchBatchTelemetry fe sn now).result = Except.error e)
    ∧ (∀ (fenv : Nat → FetchEnv R) (total : Nat) (bs : List (List String)) (i now2 : Nat),
        (aggLoop fenv total bs i now2).events.countP isBatchEv = bs.length) := by
  obtain ⟨e0, he0, hr0⟩ := h 0 (by decide)
  obtain ⟨e1, he1, hr1⟩ := h 1 (by decide)
  obtain ⟨e2, he2, hr2⟩ := h 2 (by decide)
  obtain ⟨e3, he3, hr3⟩ := h 3 (by decide)
  rw [fetchBatchTelemetry, show MAX_RETRIES = 3 from rfl]
  rw [show (3 : Nat) = 2 + 1 from rfl, fetchGo_retry fe sn now 0 2 he0 hr0 (by decide)]
  rw [show (2 : Nat) = 1 + 1 from rfl, fetchGo_retry fe sn _ 1 1 he1 hr1 (by decide)]
  rw [show (1 : Nat) = 0 + 1 from rfl, fetchGo_retry fe sn _ 2 0 he2 hr2 (by decide)]
  rw [fetchGo_final fe sn _ 3 0 he3 (Or.inr (by decide))]
  refine ⟨by simp, by norm_num, ⟨e3, he3, rfl⟩, aggLoop_batchEvents⟩

/-- Witness for C1: a fetch environment whose every attempt is answered
with HTTP 429 sleeps exactly 1000, 2000 and 4000 ms. -/
theorem fetchBatchTelemetry_allRetryable_witness :
    (fetchBatchTelemetry
      (⟨fun _ => AttemptOut.err ⟨some 429, none⟩, fun _ => 0, "tok"⟩ : FetchEnv Nat)
      [] 0).sleeps = [1000, 2000, 4000] :=
  (fetchBatchTelemetry_allRetryable _ [] 0
    (fun _ _ => ⟨⟨some 429, none⟩, rfl, rfl⟩)).2.1

/-- C2: an attempt is retried exactly when its error is retryable, where
retryable means HTTP status 429, connection refused or timeout (the code
ETIMEDOUT raised when the configured request timeout is exceeded). A
non-retryable first error yields a single attempt, no sleep and an
immediate final failure with that error; a retryable first error yields at
least a second attempt. -/
theorem fetchBatchTelemetry_retry_iff {R : Type u} (fe : FetchEnv R) (sn : List String)
    (now : Nat) (e : FetchErr) (h0 : fe.outcome 0 = AttemptOut.err e) :
    (retryable e = true ↔
      (e.status = some 429 ∨ e.code = some "ECONNREFUSED" ∨ e.code = some "ETIMEDOUT"))
    ∧ (retryable e = false →
        (fetchBatchTelemetry fe sn now).attempts.length = 1
        ∧ (fetchBatchTelemetry fe sn now).sleeps = []
        ∧ (fetchBatchTelemetry fe sn now).result = Except.error e)
    ∧ (retryable e = true → 2 ≤ (fetchBatchTelemetry fe sn now).attempts.length)
    ∧ retryable ⟨none, some "ETIMEDOUT"⟩ = true := by
  refine ⟨?_, ?_, ?_, by decide⟩
  · simp [retryable, or_assoc]
  · intro hr
    rw [fetchBatchTelemetry, fetchGo_final fe sn now 0 MAX_RETRIES h0 (Or.inl hr)]
    exact ⟨rfl, rfl, rfl⟩
  · intro hr
    rw [fetchBatchTelemetry, show MAX_RETRIES = 3 from rfl,
        show (3 : Nat) = 2 + 1 from rfl, fetchGo_retry fe sn now 0 2 h0 hr (by decide)]
    have hne : (fetchGo fe sn (now + fe.dur 0 + 2 ^ 0 * 1000) 1 2).attempts ≠ [] := by
      intro hnil
      have hh := (fetchGo_attempts fe sn 2 1 (now + fe.dur 0 + 2 ^ 0 * 1000)).1
      rw [hnil] at hh
      cases hh
    have hpos := List.length_pos.mpr hne
    simp only [List.length_cons, Nat.zero_add]
    omega

/-- Witness for C2: a 400 response is not retried and fails at once, and a
timeout error is classified retryable. -/
theorem fetchBatchTelemetry_retry_iff_witness :
    (retryable ⟨some 400, none⟩ = false →
      (fetchBatchTelemetry
        (⟨fun _ => AttemptOut.err ⟨some 400, none⟩, fun _ => 0, "tok"⟩ : FetchEnv Nat)
        [] 0).attempts.length = 1
      ∧ (fetchBatchTelemetry
        (⟨fun _ => AttemptOut.err ⟨some 400, none⟩, fun _ => 0, "tok"⟩ : FetchEnv Nat)
        [] 0).sleeps = []
      ∧ (fetchBatchTelemetry
        (⟨fun _ => AttemptOut.err ⟨some 400, none⟩, fun _ => 0, "tok"⟩ : FetchEnv Nat)
        [] 0).result = Except.error ⟨some 400, none⟩)
    ∧ retryable ⟨none, some "ETIMEDOUT"⟩ = true :=
  ⟨(fetchBatchTelemetry_retry_iff _ [] 0 ⟨some 400, none⟩ rfl).2.1,
    (fetchBatchTelemetry_retry_iff
      (⟨fun _ => AttemptOut.err ⟨some 400, none⟩, fun _ => 0, "tok"⟩ : FetchEnv Nat)
      [] 0 ⟨some 400, none⟩ rfl).2.2.2⟩

/-- C5: every attempt of a fetch, retries included, is issued with a fresh
timestamp captured at the start of that attempt and a signature computed
from that very timestamp; timestamps strictly increase across attempts, so
no attempt reuses the timestamp or the signature material of an earlier
one, and the first attempt is stamped with the call start time. -/
theorem fetchBatchTelemetry_fresh_signature {R : Type u} (fe : FetchEnv R)
    (sn : List String) (now : Nat) :
    (fetchBatchTelemetry fe sn now).attempts.head? =
      some (now, generateSignature apiPath fe.secret now)
    ∧ (∀ p ∈ (fetchBatchTelemetry fe sn now).attempts,
        p.2 = generateSignature apiPath fe.secret p.1)
    ∧ (fetchBatchTelemetry fe sn now).attempts.Pairwise (fun p q => p.1 < q.1) := by
  obtain ⟨h1, h2, h3⟩ := fetchGo_attempts fe sn MAX_RETRIES 0 now
  exact ⟨h1, fun p hp => (h2 p hp).2, h3⟩

/-! ## Counting helpers -/

theorem countP_range_eq (j : Nat) : ∀ n : Nat, j < n →
    (List.range n).countP (fun t => t == j) = 1 := by
  intro n
  induction n with
  | zero => intro h; omega
  | succ n ih =>
    intro hj
    rw [List.range_succ, List.countP_append]
    rcases Nat.lt_or_ge j n with h | h
    · rw [ih h]
      have hne : (n == j) = false := by simp; omega
      simp [List.countP_cons, hne]
    · have hjn : j = n := by omega
      subst hjn
      have hz : (List.range j).countP (fun t => t == j) = 0 := by
        rw [List.countP_eq_zero]
        intro a ha
        have := List.mem_range.mp ha
        simp
        omega
      simp [hz, List.countP_cons]

theorem countP_range_ne (j : Nat) : ∀ n : Nat, j < n →
    (List.range n).countP (fun t => !(t == j)) = n - 1 := by
  intro n
  induction n with
  | zero => intro h; omega
  | succ n ih =>
    intro hj
    rw [List.range_succ, List.countP_append]
    rcases Nat.lt_or_ge j n with h | h
    · rw [ih h]
      have hne : (n == j) = false := by simp; omega
      simp [List.countP_cons, hne]
      omega
    · have hjn : j = n := by omega
      subst hjn
      have hall : (List.range j).countP (fun t => !(t == j)) = j := by
        have := List.countP_eq_length (p := fun t => !(t == j)) (l := List.range j)
        rw [this.mpr]
        · exact List.length_range j
        · intro a ha
          have := List.mem_range.mp ha
          simp
          omega
      simp [hall, List.countP_cons]

/-- Indexing a list by the positions of List.range recovers a plain map. -/
theorem map_range_getD {β : Type u} {γ : Type v} (f : β → γ) (d : β) :
    ∀ l : List β,
      (List.range l.length).map (fun t => f (l.getD t d)) = l.map f := by
  intro l
  induction l with
  | nil => rfl
  | cons a rest ih =>
    rw [List.length_cons, List.range_succ_eq_map, List.map_cons, List.map_map]
    have hfun : ((fun t => f ((a :: rest).getD t d)) ∘ Nat.succ) =
        (fun t => f (rest.getD t d)) := by
      funext t
      simp [Function.comp_apply, Nat.succ_eq_add_one, List.getD_cons_succ]
    rw [hfun, ih, List.map_cons, List.getD_cons_zero]

/-- C6: in every run, after each batch except the last the loop emits one
slept RATE_LIMIT_MS event before the next batch is dispatched, regardless
of whether the batch succeeded or permanently failed, and no sleep event
follows the final batch; RATE_LIMIT_MS is 1000 ms. The fetcher records its
own backoff sleeps separately inside its FetchTrace, so these loop sleeps
are disjoint from the backoff delays. -/
theorem aggLoop_interBatch_pacing {R : Type u} (fenv : Nat → FetchEnv R)
    (bs : List (List String)) (now : Nat) :
    (aggLoop fenv bs.length bs 0 now).events =
      ((List.range bs.length).map
        (fun t => evOf t (batchOutcome (fenv t) (bs.getD t [])) ::
          (if t < bs.length - 1 then [Ev.slept RATE_LIMIT_MS] else []))).flatten
    ∧ RATE_LIMIT_MS = 1000 := by
  have h := (aggLoop_spec fenv bs.length bs 0 now).2.2.2
  simp only [Nat.zero_add] at h
  exact ⟨h, rfl⟩

/-- C9: the persistence write is attempted exactly when the persist option
is set and at least one record was collected, and the outcome of the write
(the saveOk component of the environment) influences neither the returned
record collection nor the counters; the run returns in all cases. -/
theorem aggregateAllTelemetry_persist_policy {R : Type u} (env : AggEnv R)
    (save : Bool) (now : Nat) (b b2 : Bool) :
    ((aggregateAllTelemetry env save now).persistAttempted = true ↔
      (save = true ∧ 0 < (aggregateAllTelemetry env save now).records.length))
    ∧ (aggregateAllTelemetry ⟨env.batchEnv, b⟩ save now).records =
        (aggregateAllTelemetry ⟨env.batchEnv, b2⟩ save now).records
    ∧ (aggregateAllTelemetry ⟨env.batchEnv, b⟩ save now).successCount =
        (aggregateAllTelemetry ⟨env.batchEnv, b2⟩ save now).successCount
    ∧ (aggregateAllTelemetry ⟨env.batchEnv, b⟩ save now).failureCount =
        (aggregateAllTelemetry ⟨env.batchEnv, b2⟩ save now).failureCount
    ∧ (aggregateAllTelemetry env save now).persistSucceeded =
        ((aggregateAllTelemetry env save now).persistAttempted && env.saveOk) := by
  refine ⟨?_, rfl, rfl, rfl, rfl⟩
  simp [aggregateAllTelemetry]

/-- A batch whose every attempt fails retryably exhausts its retries and
ends in a permanent failure. -/
theorem batchOutcome_allRetryable {R : Type u} (fe : FetchEnv R) (sn : List String)
    (h : ∀ k, k ≤ MAX_RETRIES →
      ∃ e, fe.outcome k = AttemptOut.err e ∧ retryable e = true) :
    ∃ e, batchOutcome fe sn = Except.error e := by
  obtain ⟨e0, he0, hr0⟩ := h 0 (by decide)
  obtain ⟨e1, he1, hr1⟩ := h 1 (by decide)
  obtain ⟨e2, he2, hr2⟩ := h 2 (by decide)
  obtain ⟨e3, he3, hr3⟩ := h 3 (by decide)
  rw [batchOutcome, fetchBatchTelemetry, show MAX_RETRIES = 3 from rfl]
  rw [show (3 : Nat) = 2 + 1 from rfl, fetchGo_retry fe sn 0 0 2 he0 hr0 (by decide)]
  rw [show (2 : Nat) = 1 + 1 from rfl, fetchGo_retry fe sn _ 1 1 he1 hr1 (by decide)]
  rw [show (1 : Nat) = 0 + 1 from rfl, fetchGo_retry fe sn _ 2 0 he2 hr2 (by decide)]
  rw [fetchGo_final fe sn _ 3 0 he3 (Or.inr (by decide))]
  exact ⟨e3, rfl⟩

/-- C4: in a run where exactly one batch permanently fails (every attempt a
retryable failure, exhausting the retries) and every other batch succeeds,
aggregateAllTelemetry still returns a result whose record collection is
the in-order concatenation of the successful batches with nothing from the
failed batch, with success count B - 1, failure count 1, their sum the
batch count B, which is 50 in this run. -/
theorem aggregateAllTelemetry_partial_failure {R : Type u} (env : AggEnv R)
    (save : Bool) (now j : Nat) (recs : Nat → List R)
    (hj : j < batches.length)
    (hfail : ∀ k, k ≤ MAX_RETRIES →
      ∃ e, (env.batchEnv j).outcome k = AttemptOut.err e ∧ retryable e = true)
    (hok : ∀ i, i < batches.length → i ≠ j →
      batchOutcome (env.batchEnv i) (batches.getD i []) = Except.ok (recs i)) :
    (aggregateAllTelemetry env save now).records =
      ((List.range batches.length).map (fun i => if i = j then [] else recs i)).flatten
    ∧ (aggregateAllTelemetry env save now).successCount = batches.length - 1
    ∧ (aggregateAllTelemetry env save now).failureCount = 1
    ∧ (aggregateAllTelemetry env save now).successCount
        + (aggregateAllTelemetry env save now).failureCount = batches.length
    ∧ batches.length = 50 := by
  obtain ⟨efail, hefail⟩ :=
    batchOutcome_allRetryable (env.batchEnv j) (batches.getD j []) hfail
  obtain ⟨hrec, hsc, hfc, hev⟩ := aggLoop_spec env.batchEnv batches.length batches 0 now
  simp only [Nat.zero_add] at hrec hsc hfc
  have hR : (aggregateAllTelemetry env save now).records =
      (aggLoop env.batchEnv batches.length batches 0 now).records := rfl
  have hS : (aggregateAllTelemetry env save now).successCount =
      (aggLoop env.batchEnv batches.length batches 0 now).successCount := rfl
  have hF : (aggregateAllTelemetry env save now).failureCount =
      (aggLoop env.batchEnv batches.length batches 0 now).failureCount := rfl
  have hsucc : (aggregateAllTelemetry env save now).successCount = batches.length - 1 := by
    rw [hS, hsc]
    have hcongr : (List.range batches.length).countP
        (fun t => isOkB (batchOutcome (env.batchEnv t) (batches.getD t []))) =
        (List.range batches.length).countP (fun t => !(t == j)) := by
      apply List.countP_congr
      intro t ht
      have ht2 := List.mem_range.mp ht
      by_cases hteq : t = j
      · subst hteq; rw [hefail]; simp [isOkB]
      · rw [hok t ht2 hteq]; simp [isOkB, hteq]
    rw [hcongr, countP_range_ne j batches.length hj]
  have hfail2 : (aggregateAllTelemetry env save now).failureCount = 1 := by
    rw [hF, hfc]
    have hcongr : (List.range batches.length).countP
        (fun t => !isOkB (batchOutcome (env.batchEnv t) (batches.getD t []))) =
        (List.range batches.length).countP (fun t => t == j) := by
      apply List.countP_congr
      intro t ht
      have ht2 := List.mem_range.mp ht
      by_cases hteq : t = j
      · subst hteq; rw [hefail]; simp [isOkB]
      · rw [hok t ht2 hteq]; simp [isOkB, hteq]
    rw [hcongr, countP_range_eq j batches.length hj]
  refine ⟨?_, hsucc, hfail2, ?_, batches_length⟩
  · rw [hR, hrec]
    congr 1
    apply List.map_congr_left
    intro t ht
    have ht2 := List.mem_range.mp ht
    by_cases hteq : t = j
    · subst hteq; rw [if_pos rfl, hefail]; rfl
    · rw [if_neg hteq, hok t ht2 hteq]; rfl
  · rw [hsucc, hfail2]
    omega

/-- Witness for C4: with batch 0 permanently rate limited and every other
batch succeeding empty, the run counts exactly one failure. -/
theorem aggregateAllTelemetry_partial_failure_witness :
    (aggregateAllTelemetry oneFailEnv false 0).failureCount = 1 :=
  (aggregateAllTelemetry_partial_failure oneFailEnv false 0 0 (fun _ => [])
    (by rw [batches_length]; omega)
    (fun k hk => ⟨⟨some 429, none⟩, rfl, rfl⟩)
    (fun i hi hne => by
      have hbe : oneFailEnv.batchEnv i = alwaysEmpty := by
        simp [oneFailEnv, hne]
      rw [hbe]
      rfl)).2.2.1

/-- C8: when the server returns at most one record per requested device
(each successful batch reply no longer than the batch), the returned record
collection of a run has at most as many records as there are generated
DeviceIds (500): every failed batch contributes exactly zero records and
every successful batch contributes exactly the records the server
returned, as the closed form in the first conjunct states. -/
theorem aggregateAllTelemetry_record_bound {R : Type u} (env : AggEnv R)
    (save : Bool) (now : Nat)
    (hsrv : ∀ i, i < batches.length → ∀ d,
      batchOutcome (env.batchEnv i) (batches.getD i []) = Except.ok d →
      d.length ≤ (batches.getD i []).length) :
    (aggregateAllTelemetry env save now).records =
      ((List.range batches.length).map
        (fun i => recsOf (batchOutcome (env.batchEnv i) (batches.getD i [])))).flatten
    ∧ (aggregateAllTelemetry env save now).records.length ≤ allSerialNumbers.length
    ∧ allSerialNumbers.length = 500 := by
  obtain ⟨hrec, hsc, hfc, hev⟩ := aggLoop_spec env.batchEnv batches.length batches 0 now
  simp only [Nat.zero_add] at hrec
  have hR : (aggregateAllTelemetry env save now).records =
      (aggLoop env.batchEnv batches.length batches 0 now).records := rfl
  refine ⟨hR.trans hrec, ?_, allSerialNumbers_length⟩
  rw [hR, hrec, List.length_flatten, List.map_map]
  have hle : ((List.range batches.length).map
      (List.length ∘ fun t => recsOf (batchOutcome (env.batchEnv t) (batches.getD t [])))).sum ≤
      ((List.range batches.length).map (fun t => (batches.getD t []).length)).sum := by
    apply List.sum_le_sum
    intro t ht
    have ht2 := List.mem_range.mp ht
    simp only [Function.comp_apply]
    cases hres : batchOutcome (env.batchEnv t) (batches.getD t []) with
    | ok d => simpa [recsOf] using hsrv t ht2 d hres
    | error e => simp [recsOf]
  refine le_trans hle ?_
  rw [map_range_getD List.length ([] : List String) batches, ← List.length_flatten]
  have hfl : batches.flatten = allSerialNumbers := by
    have hjoin := chunkGo_flatten BATCH_SIZE (by decide) allSerialNumbers.length
      allSerialNumbers le_rfl
    simpa [batches, chunkArray] using hjoin
  rw [hfl]

/-- Witness for C8: a run in which every batch succeeds with an empty reply
collects no more records than there are DeviceIds. -/
theorem aggregateAllTelemetry_record_bound_witness :
    (aggregateAllTelemetry allEmptyEnv false 0).records.length ≤ allSerialNumbers.length :=
  (aggregateAllTelemetry_record_bound allEmptyEnv false 0
    (fun i hi d hd => by
      have hx : batchOutcome (allEmptyEnv.batchEnv i) (batches.getD i []) =
          Except.ok ([] : List Nat) := rfl
      rw [hx] at hd
      injection hd with hd2
      subst hd2
      simp)).2.1

/-! ## Lemmas about the signature -/

/-- The MD5 digest always consists of exactly 16 bytes. -/
theorem md5_length (msg : List Nat) : (md5 msg).length = 16 := by
  simp [md5, wordLEBytes]

/-- Every character produced by hexDigitChar is a lowercase hex digit. -/
theorem hexDigitChar_mem (n : Nat) : hexDigitChar n ∈ hexChars := by
  rw [hexDigitChar, List.getD_eq_getElem?_getD]
  cases h : hexChars[n]? with
  | none =>
    rw [Option.getD_none]
    decide
  | some c =>
    rw [Option.getD_some]
    exact List.getElem?_mem h

/-- C7: generateSignature is a deterministic pure function: equal
(path, secret, timestamp) triples give equal signatures, the signature is
exactly the MD5 hex digest of the delimiter-free concatenation
path ++ secret ++ decimal timestamp, and the rendering is 32 characters
drawn from the lowercase hexadecimal alphabet. -/
theorem generateSignature_spec (p s : String) (t : Nat) (p2 s2 : String) (t2 : Nat)
    (hp : p = p2) (hs : s = s2) (ht : t = t2) :
    generateSignature p s t = generateSignature p2 s2 t2
    ∧ generateSignature p s t = md5Hex (strBytes (p ++ s ++ toString t))
    ∧ (generateSignature p s t).length = 32
    ∧ (∀ c ∈ (generateSignature p s t).data, c ∈ hexChars) := by
  subst hp; subst hs; subst ht
  refine ⟨rfl, rfl, ?_, ?_⟩
  · show (String.mk ((md5 (strBytes (p ++ s ++ toString t))).flatMap byteToHex)).length = 32
    show ((md5 (strBytes (p ++ s ++ toString t))).flatMap byteToHex).length = 32
    rw [List.length_flatMap]
    rw [show (List.length ∘ byteToHex) = fun _ : Nat => 2 from funext fun b => rfl]
    rw [List.map_const', List.sum_replicate, md5_length]
    norm_num
  · intro c hc
    have hc2 : c ∈ (md5 (strBytes (p ++ s ++ toString t))).flatMap byteToHex := hc
    obtain ⟨b, hb, hcb⟩ := List.mem_flatMap.mp hc2
    simp only [byteToHex, List.mem_cons, List.not_mem_nil, or_false] at hcb
    rcases hcb with hcb | hcb <;> rw [hcb] <;> exact hexDigitChar_mem _

/-- Witness for C7: the signature of a concrete triple equals itself by the
determinism clause of the specification theorem. -/
theorem generateSignature_spec_witness :
    generateSignature "/device/real/query" "tok" 5 =
      generateSignature "/device/real/query" "tok" 5 :=
  (generateSignature_spec "/device/real/query" "tok" 5
    "/device/real/query" "tok" 5 rfl rfl rfl).1

/-- C10: getBatchRange is total on all array inputs: a null or undefined or
empty array gives the empty string, a one element array gives that element
alone with no separator, and an array of length at least two gives first,
the literal separator, and last. -/
theorem getBatchRange_spec :
    getBatchRange none = ""
    ∧ getBatchRange (some []) = ""
    ∧ (∀ x : String, getBatchRange (some [x]) = x)
    ∧ (∀ l : List String, 2 ≤ l.length →
        getBatchRange (some l) = l.headI ++ " to " ++ l.getLastI) := by
  refine ⟨rfl, rfl, fun x => rfl, fun l hl => ?_⟩
  simp only [getBatchRange]
  rw [if_neg (by omega), if_neg (by omega)]

/-- Witness for C10 at a three element list. -/
theorem getBatchRange_spec_witness :
    2 ≤ (["SN-000", "SN-001", "SN-009"] : List String).length
    ∧ getBatchRange (some ["SN-000", "SN-001", "SN-009"]) =
        (["SN-000", "SN-001", "SN-009"] : List String).headI ++ " to " ++
          (["SN-000", "SN-001", "SN-009"] : List String).getLastI :=
  ⟨by decide, (getBatchRange_spec).2.2.2 ["SN-000", "SN-001", "SN-009"] (by decide)⟩

end EnergyGrid
